import Mathlib

/-!
Verification of the ingestion pipeline of the graphconnect-2022 demo
repository. The notebook `neo4j_arrow_mag240.ipynb` drives a bulk load of
the MAG240M graph through a stateful Arrow client (`client.start`,
`bq.fan_out`, `client.nodes_done`, `client.edges_done`) and the
specification describes the Bulk Load Session protocol, the fan-out
scheduler and the result aggregation. The client and scheduler modules
are imported by the notebook but their implementation files are not part
of the source tree, so those operations are modelled from the
specification; the node id offsets are taken directly from the data
preparation notes in the source tree.
-/

/-- The five Session states, in protocol order (spec section 3,
Session attribute `state`). -/
inductive SessionState where
  | CREATED
  | LOADING_NODES
  | NODES_DONE
  | LOADING_EDGES
  | EDGES_DONE
deriving DecidableEq, Repr

/-- Position of a state in the monotonic progression
CREATED, LOADING_NODES, NODES_DONE, LOADING_EDGES, EDGES_DONE. -/
def sessionRank : SessionState → Nat
  | .CREATED => 0
  | .LOADING_NODES => 1
  | .NODES_DONE => 2
  | .LOADING_EDGES => 3
  | .EDGES_DONE => 4

/-- Error kinds of the pipeline (spec section 7). Only the kinds the
Session operations themselves raise are modelled. -/
inductive PipelineError where
  | ProtocolStateError
  | TransportError
deriving DecidableEq, Repr

/-- A RowBatch in flight: only the row and byte cardinalities matter to
the protocol accounting (spec section 3, RowBatch). -/
structure Batch where
  rows : Nat
  bytes : Nat
deriving DecidableEq, Repr

/-- Per item result collected by the scheduler (spec section 3,
ItemResult: rows, bytes, elapsed). -/
structure ItemResult where
  rows : Nat
  bytes : Nat
  elapsed : ℚ
deriving DecidableEq, Repr

/-- Modelled from the spec: the Bulk Load Session of the missing
`neo4j_arrow` client module. Attributes graph_name, concurrency_hint and
state are from spec section 3; node_count and edge_count model the
server-side running totals that `nodes_done` and `edges_done` report. -/
structure Session where
  graph_name : String
  concurrency_hint : Nat
  state : SessionState
  node_count : Nat
  edge_count : Nat
deriving DecidableEq, Repr

/-- Modelled from the spec: `client.start` of the missing client module
(spec table row begin: precondition CREATED, postcondition
LOADING_NODES). -/
def Session.start (s : Session) : Except PipelineError Session :=
  if s.state = .CREATED then
    .ok { s with state := .LOADING_NODES }
  else
    .error .ProtocolStateError

/-- Modelled from the spec: `submit_nodes` of the missing client module
(spec table row submit_nodes: precondition LOADING_NODES, postcondition
LOADING_NODES, result an ack carrying rows and bytes). -/
def Session.submit_nodes (s : Session) (b : Batch) :
    Except PipelineError (Session × Batch) :=
  if s.state = .LOADING_NODES then
    .ok ({ s with node_count := s.node_count + b.rows }, b)
  else
    .error .ProtocolStateError

/-- Modelled from the spec: `client.nodes_done` of the missing client
module (spec table row finalize_nodes: precondition LOADING_NODES,
postcondition NODES_DONE, result the total node count). -/
def Session.nodes_done (s : Session) :
    Except PipelineError (Session × Nat) :=
  if s.state = .LOADING_NODES then
    .ok ({ s with state := .NODES_DONE }, s.node_count)
  else
    .error .ProtocolStateError

/-- Modelled from the spec: `submit_edges` of the missing client module
(spec table row submit_edges: precondition NODES_DONE or LOADING_EDGES,
postcondition LOADING_EDGES). -/
def Session.submit_edges (s : Session) (b : Batch) :
    Except PipelineError (Session × Batch) :=
  if s.state = .NODES_DONE ∨ s.state = .LOADING_EDGES then
    .ok ({ s with state := .LOADING_EDGES,
                  edge_count := s.edge_count + b.rows }, b)
  else
    .error .ProtocolStateError

/-- Modelled from the spec: `client.edges_done` of the missing client
module (spec table row finalize_edges: precondition LOADING_EDGES,
postcondition EDGES_DONE, result the total relationship count). -/
def Session.edges_done (s : Session) :
    Except PipelineError (Session × Nat) :=
  if s.state = .LOADING_EDGES then
    .ok ({ s with state := .EDGES_DONE }, s.edge_count)
  else
    .error .ProtocolStateError

/-- A public Session operation, labelled with its argument. -/
inductive Op where
  | startOp
  | submitNodes (b : Batch)
  | finalizeNodes
  | submitEdges (b : Batch)
  | finalizeEdges
deriving DecidableEq, Repr

/-- The state transition of one public operation, discarding the ack
payload. -/
def step (op : Op) (s : Session) : Except PipelineError Session :=
  match op with
  | .startOp => s.start
  | .submitNodes b => (s.submit_nodes b).map Prod.fst
  | .finalizeNodes => (s.nodes_done).map Prod.fst
  | .submitEdges b => (s.submit_edges b).map Prod.fst
  | .finalizeEdges => (s.edges_done).map Prod.fst

/-- Result of running one operation while keeping the old session on an
error: the protocol guarantees an erroring call leaves state and counts
unchanged. -/
def stepOrStay (op : Op) (s : Session) : Session :=
  match step op s with
  | .ok s1 => s1
  | .error _ => s

/-- An opaque handle to one independently readable partition stream,
identified by a stable reference string (spec section 3, Partition). -/
structure Partition where
  ref : String
deriving DecidableEq, Repr

/-- A dataset descriptor as declared in the notebook: schema details as
name-to-column pairs (the key field for node datasets; the src, dst and
type fields for edge datasets) together with the partition streams of the
backing BigQuery table. -/
structure Dataset where
  fields : List (String × String)
  streams : List Partition
deriving DecidableEq, Repr

/-- The atomic unit of scheduling (spec section 3, WorkItem): a dataset
paired with one of its partitions. -/
structure WorkItem where
  dataset : Dataset
  partition : Partition
deriving DecidableEq, Repr

/-- Modelled from the spec: `bq.streams_from` of the missing scheduler
module, which extracts the partition streams of one dataset descriptor. -/
def streams_from (d : Dataset) : List Partition :=
  d.streams

/-- Modelled from the spec: `bq.flatten` of the missing scheduler module.
It expands a list of dataset descriptors into a single flat ordered list
of WorkItems, preserving dataset identity per item (spec section 4.2). -/
def flatten (ds : List Dataset) : List WorkItem :=
  ds.flatMap fun d => (streams_from d).map fun p => WorkItem.mk d p

/-- The stream count computed in the notebook cell: the total number of
prepared partition streams across all node and edge dataset
descriptors. -/
def stream_cnt (nodes edges : List Dataset) : Nat :=
  ((nodes ++ edges).map fun d => (streams_from d).length).sum

/-- Modelled from the spec: `bq.fan_out` of the missing scheduler module.
The bounded worker pool is abstracted by the order in which items
complete: `order` is the completion order of the items, `process` is the
per item work of one worker, `elapsed` is the wall time from first
dispatch to last completion, and `mc` is the pool bound, which does not
affect which results are produced (spec section 4.4). -/
def fan_out (mc : Nat) (process : WorkItem → ItemResult)
    (order : List WorkItem) (elapsed : ℚ) : List ItemResult × ℚ :=
  (order.map process, elapsed)

/-- The throughput derivation of the notebook cells,
node_rate = int(total / timing): there is no guard, so a zero elapsed
time hits the division-by-zero branch, modelled as none. -/
def rate (total : Nat) (timing : ℚ) : Option ℤ :=
  if timing = 0 then none else some ⌊(total : ℚ) / timing⌋

/-- The five wire actions of the bulk-load protocol (spec section 6),
with batch submissions labelled by the index of the submitted item. -/
inductive WireOp where
  | CREATE_GRAPH
  | PUT_NODE_BATCH (i : Nat)
  | NODES_DONE
  | PUT_EDGE_BATCH (i : Nat)
  | EDGES_DONE
deriving DecidableEq, Repr

/-- Modelled from the spec: the sequence of wire actions one pipeline run
issues, following the notebook cells in order: start, fan out the node
items, nodes_done, fan out the edge items, edges_done. The worker pool is
abstracted by the completion orders `nodeOrder` and `edgeOrder` of the
two phases. -/
def pipelineTrace (nodeOrder edgeOrder : List Nat) : List WireOp :=
  WireOp.CREATE_GRAPH ::
    (nodeOrder.map WireOp.PUT_NODE_BATCH ++
      (WireOp.NODES_DONE ::
        (edgeOrder.map WireOp.PUT_EDGE_BATCH ++ [WireOp.EDGES_DONE])))

/-- Modelled from the spec: the node phase of the pipeline. Each node
item submits its batch through the Session and yields an ItemResult
carrying the acknowledged rows and bytes and the per item elapsed
time. -/
def runNodeItems (s : Session) :
    List (Batch × ℚ) → Except PipelineError (Session × List ItemResult)
  | [] => .ok (s, [])
  | (b, t) :: rest =>
    match s.submit_nodes b with
    | .error e => .error e
    | .ok (s1, ack) =>
      match runNodeItems s1 rest with
      | .error e => .error e
      | .ok (s2, rs) => .ok (s2, ItemResult.mk ack.rows ack.bytes t :: rs)

/-- Outcome of one edge item under the continue-on-error policy: either
an ItemResult or a recorded failure. -/
inductive ItemOutcome where
  | success (r : ItemResult)
  | failure
deriving DecidableEq, Repr

/-- Whether an outcome is a success. -/
def ItemOutcome.isSuccess : ItemOutcome → Bool
  | .success _ => true
  | .failure => false

/-- Modelled from the spec: the edge phase of the pipeline under the
continue-on-error policy. Each edge item carries its batch, its per item
elapsed time, and whether its submit eventually succeeds within the
bounded retries; an item whose retries exhaust is marked failed and its
siblings keep running, the session untouched by the failed item. -/
def runEdgeItemsCOE (s : Session) :
    List (Batch × ℚ × Bool) →
      Except PipelineError (Session × List ItemOutcome)
  | [] => .ok (s, [])
  | (b, t, good) :: rest =>
    if good then
      match s.submit_edges b with
      | .error e => .error e
      | .ok (s1, ack) =>
        match runEdgeItemsCOE s1 rest with
        | .error e => .error e
        | .ok (s2, outs) =>
          .ok (s2, ItemOutcome.success (ItemResult.mk ack.rows ack.bytes t) :: outs)
    else
      match runEdgeItemsCOE s rest with
      | .error e => .error e
      | .ok (s2, outs) => .ok (s2, ItemOutcome.failure :: outs)

/-- Node id offset for authors (data preparation notes: original id
plus 0, no shift). -/
def authorOffset : Nat := 0

/-- Node id offset for papers (data preparation notes: original id
plus 0x8000000). -/
def paperOffset : Nat := 0x8000000

/-- Node id offset for institutions (data preparation notes: original id
plus 0xf800000). -/
def institutionOffset : Nat := 0xf800000

/-- The transmitted identifier of an author. -/
def shiftAuthorId (a : Nat) : Nat := a + authorOffset

/-- The transmitted identifier of a paper. -/
def shiftPaperId (p : Nat) : Nat := p + paperOffset

/-- The transmitted identifier of an institution. -/
def shiftInstitutionId (i : Nat) : Nat := i + institutionOffset

/-- Modelled from the spec: the source id range of author ids. The data
preparation notes fix the offsets but not the numeric ranges of the
original ids; the spec states the offsets make the combined id space
collision-free, so each source range is modelled as fitting below the
next offset. Author ids lie below 0x8000000 (the MAG240M dataset has
about 122 million authors, within this bound). -/
def authorIdInRange (a : Nat) : Prop := a < paperOffset

/-- Modelled from the spec: the source id range of paper ids, fitting
between the paper offset and the institution offset (the MAG240M dataset
has about 122 million papers, within this bound). -/
def paperIdInRange (p : Nat) : Prop := p + paperOffset < institutionOffset

/-- Sum of the rows of the edge items whose submit eventually succeeds
within the bounded retries. -/
def successRows (items : List (Batch × ℚ × Bool)) : Nat :=
  ((items.filter fun x => x.2.2).map fun x => x.1.rows).sum

/-- A sample partition stream used for concrete instantiations. -/
def samplePartition : Partition := Partition.mk "stream-0"

/-- A sample node dataset descriptor. -/
def sampleDataset : Dataset :=
  Dataset.mk [("key", "paper")] [samplePartition]

/-- A sample work item. -/
def sampleItem : WorkItem := WorkItem.mk sampleDataset samplePartition

/-- Ten concrete edge items of ten rows each, of which exactly the fifth
fails all its bounded retries. -/
def edgeItems10 : List (Batch × ℚ × Bool) :=
  [(Batch.mk 10 80, 1, true), (Batch.mk 10 80, 1, true),
   (Batch.mk 10 80, 1, true), (Batch.mk 10 80, 1, true),
   (Batch.mk 10 80, 1, false), (Batch.mk 10 80, 1, true),
   (Batch.mk 10 80, 1, true), (Batch.mk 10 80, 1, true),
   (Batch.mk 10 80, 1, true), (Batch.mk 10 80, 1, true)]

/-- C2: for every Session in a state reachable without finalize_nodes
(CREATED or LOADING_NODES), submit_edges fails with ProtocolStateError
and the session, hence its state and its server counts, is unchanged. -/
theorem submit_edges_before_finalize_fails (s : Session) (b : Batch)
    (h : s.state = .CREATED ∨ s.state = .LOADING_NODES) :
    s.submit_edges b = .error .ProtocolStateError ∧
      stepOrStay (.submitEdges b) s = s := by
  have hne : ¬ (s.state = .NODES_DONE ∨ s.state = .LOADING_EDGES) := by
    rcases h with h | h <;> simp [h]
  constructor
  · simp [Session.submit_edges, hne]
  · simp [stepOrStay, step, Session.submit_edges, hne, Except.map]

theorem submit_edges_before_finalize_fails_witness :
    Session.submit_edges
        (Session.mk "gcdemo" 224 .LOADING_NODES 0 0) (Batch.mk 5 40) =
      .error .ProtocolStateError ∧
    stepOrStay (.submitEdges (Batch.mk 5 40))
        (Session.mk "gcdemo" 224 .LOADING_NODES 0 0) =
      Session.mk "gcdemo" 224 .LOADING_NODES 0 0 :=
  submit_edges_before_finalize_fails _ _ (Or.inr rfl)

/-- C3: the Session state is a single monotonic progression. Every
successful public operation keeps the state or advances it strictly
forward in the protocol order, and once EDGES_DONE is reached no further
submit is accepted. -/
theorem session_state_monotonic :
    (∀ (op : Op) (s s1 : Session), step op s = .ok s1 →
        sessionRank s.state ≤ sessionRank s1.state) ∧
    (∀ (s : Session) (b : Batch), s.state = .EDGES_DONE →
        step (.submitNodes b) s = .error .ProtocolStateError ∧
        step (.submitEdges b) s = .error .ProtocolStateError) := by
  constructor
  · intro op s s1 h
    cases op with
    | startOp =>
      simp only [step, Session.start] at h
      split at h
      · next hc =>
        simp only [Except.ok.injEq] at h
        subst h
        simp [sessionRank, hc]
      · simp at h
    | submitNodes b =>
      simp only [step, Session.submit_nodes] at h
      split at h
      · next hc =>
        simp only [Except.map, Except.ok.injEq] at h
        subst h
        simp
      · simp [Except.map] at h
    | finalizeNodes =>
      simp only [step, Session.nodes_done] at h
      split at h
      · next hc =>
        simp only [Except.map, Except.ok.injEq] at h
        subst h
        simp [sessionRank, hc]
      · simp [Except.map] at h
    | submitEdges b =>
      simp only [step, Session.submit_edges] at h
      split at h
      · next hc =>
        simp only [Except.map, Except.ok.injEq] at h
        subst h
        rcases hc with hc | hc <;> simp [sessionRank, hc]
      · simp [Except.map] at h
    | finalizeEdges =>
      simp only [step, Session.edges_done] at h
      split at h
      · next hc =>
        simp only [Except.map, Except.ok.injEq] at h
        subst h
        simp [sessionRank, hc]
      · simp [Except.map] at h
  · intro s b h
    constructor <;>
      simp [step, Session.submit_nodes, Session.submit_edges, h, Except.map]

theorem session_state_monotonic_witness :
    sessionRank (Session.mk "gcdemo" 224 .CREATED 0 0).state ≤
      sessionRank (Session.mk "gcdemo" 224 .LOADING_NODES 0 0).state :=
  session_state_monotonic.1 .startOp
    (Session.mk "gcdemo" 224 .CREATED 0 0)
    (Session.mk "gcdemo" 224 .LOADING_NODES 0 0) rfl

/-- C7: a second finalize_nodes immediately after a successful one fails
with ProtocolStateError, because the state has advanced past
LOADING_NODES. -/
theorem finalize_nodes_twice_fails (s s1 : Session) (n : Nat)
    (h : s.nodes_done = .ok (s1, n)) :
    s1.nodes_done = .error .ProtocolStateError := by
  unfold Session.nodes_done at h
  split at h
  · next hc =>
    simp only [Except.ok.injEq, Prod.mk.injEq] at h
    obtain ⟨h1, -⟩ := h
    subst h1
    simp [Session.nodes_done]
  · simp at h

theorem finalize_nodes_twice_fails_witness :
    Session.nodes_done (Session.mk "gcdemo" 224 .NODES_DONE 7 0) =
      .error .ProtocolStateError :=
  finalize_nodes_twice_fails (Session.mk "gcdemo" 224 .LOADING_NODES 7 0) _ 7 rfl

/-- C6: the fixed additive id offsets per node kind make the combined
transmitted identifier space collision-free: for ids drawn from their
source ranges, the shifted author, paper and institution identifiers are
pairwise distinct across kinds. -/
theorem id_offsets_collision_free (a p i : Nat)
    (ha : authorIdInRange a) (hp : paperIdInRange p) :
    shiftAuthorId a ≠ shiftPaperId p ∧
      shiftAuthorId a ≠ shiftInstitutionId i ∧
      shiftPaperId p ≠ shiftInstitutionId i := by
  simp only [authorIdInRange, paperIdInRange, shiftAuthorId, shiftPaperId,
    shiftInstitutionId, authorOffset, paperOffset, institutionOffset] at *
  omega

theorem id_offsets_collision_free_witness :
    shiftAuthorId 1 ≠ shiftPaperId 2 ∧
      shiftAuthorId 1 ≠ shiftInstitutionId 3 ∧
      shiftPaperId 2 ≠ shiftInstitutionId 3 :=
  id_offsets_collision_free 1 2 3 (by norm_num [authorIdInRange, paperOffset])
    (by norm_num [paperIdInRange, paperOffset, institutionOffset])

/-- C10: the throughput derivation divides the summed row and byte totals
by the elapsed time returned by fan_out with no guard; whenever the
elapsed result of a fan_out invocation is positive, the
division-by-zero branch is unreachable (both rates are defined). -/
theorem rate_defined_of_pos_elapsed (mc : Nat)
    (process : WorkItem → ItemResult) (order : List WorkItem)
    (elapsed : ℚ) (h : 0 < (fan_out mc process order elapsed).2) :
    (rate (((fan_out mc process order elapsed).1.map ItemResult.rows).sum)
        (fan_out mc process order elapsed).2).isSome = true ∧
      (rate (((fan_out mc process order elapsed).1.map ItemResult.bytes).sum)
        (fan_out mc process order elapsed).2).isSome = true := by
  have hne : (fan_out mc process order elapsed).2 ≠ 0 := ne_of_gt h
  constructor <;> simp [rate, hne]

theorem rate_defined_of_pos_elapsed_witness :
    (rate (((fan_out 2 (fun _ => ItemResult.mk 3 24 1) [sampleItem] 1).1.map
          ItemResult.rows).sum)
        (fan_out 2 (fun _ => ItemResult.mk 3 24 1) [sampleItem] 1).2).isSome = true ∧
      (rate (((fan_out 2 (fun _ => ItemResult.mk 3 24 1) [sampleItem] 1).1.map
          ItemResult.bytes).sum)
        (fan_out 2 (fun _ => ItemResult.mk 3 24 1) [sampleItem] 1).2).isSome = true :=
  rate_defined_of_pos_elapsed 2 (fun _ => ItemResult.mk 3 24 1) [sampleItem] 1
    (by norm_num [fan_out])

/-- C4: for every finite list of work items and every pool bound of at
least one, fan_out processes each item exactly once and returns exactly
as many ItemResults as there are input items, regardless of the order in
which items complete: the results are a permutation of processing each
input item once. -/
theorem fan_out_one_to_one (mc : Nat) (process : WorkItem → ItemResult)
    (items order : List WorkItem) (elapsed : ℚ)
    (hmc : 1 ≤ mc) (hperm : order.Perm items) :
    (fan_out mc process order elapsed).1.length = items.length ∧
      (fan_out mc process order elapsed).1.Perm (items.map process) := by
  refine ⟨?_, ?_⟩
  · simp [fan_out, hperm.length_eq]
  · simpa [fan_out] using hperm.map process

theorem fan_out_one_to_one_witness :
    (fan_out 2 (fun _ => ItemResult.mk 100 800 1) [sampleItem] 1).1.length =
        [sampleItem].length ∧
      (fan_out 2 (fun _ => ItemResult.mk 100 800 1) [sampleItem] 1).1.Perm
        ([sampleItem].map fun _ => ItemResult.mk 100 800 1) :=
  fan_out_one_to_one 2 (fun _ => ItemResult.mk 100 800 1)
    [sampleItem] [sampleItem] 1 (by norm_num) (List.Perm.refl _)

/-- C9: flattening the declared datasets into work lists conserves
cardinality: the length of the flattened node work list plus the length
of the flattened edge work list equals the total number of partition
streams across all datasets, and the flattened lists carry exactly the
streams of the datasets in order, so no stream is dropped or
duplicated. -/
theorem flatten_conserves_streams (nodes edges : List Dataset) :
    (flatten nodes).length + (flatten edges).length = stream_cnt nodes edges ∧
      (flatten nodes).map WorkItem.partition = nodes.flatMap streams_from ∧
      (flatten edges).map WorkItem.partition = edges.flatMap streams_from := by
  have hmap : ∀ ds : List Dataset,
      (flatten ds).map WorkItem.partition = ds.flatMap streams_from := by
    intro ds
    simp [flatten, List.map_flatMap, List.map_map, Function.comp_def]
  have hlen : ∀ ds : List Dataset,
      (flatten ds).length = (ds.map fun d => (streams_from d).length).sum := by
    intro ds
    simp [flatten, List.length_flatMap, Function.comp_def, List.length_map]
  refine ⟨?_, hmap nodes, hmap edges⟩
  simp [hlen, stream_cnt, List.map_append]

theorem runNodeItems_ok (items : List (Batch × ℚ)) :
    ∀ s : Session, s.state = .LOADING_NODES →
      ∃ (s1 : Session) (results : List ItemResult),
        runNodeItems s items = .ok (s1, results) ∧
        s1.state = .LOADING_NODES ∧
        s1.node_count = s.node_count + (items.map fun x => x.1.rows).sum ∧
        (results.map ItemResult.rows).sum = (items.map fun x => x.1.rows).sum ∧
        results.length = items.length := by
  induction items with
  | nil =>
    intro s hs
    exact ⟨s, [], rfl, hs, by simp, by simp, rfl⟩
  | cons it rest ih =>
    intro s hs
    obtain ⟨b, t⟩ := it
    have hsub : s.submit_nodes b =
        .ok ({ s with node_count := s.node_count + b.rows }, b) := by
      simp [Session.submit_nodes, hs]
    obtain ⟨s1, results, hrun, hstate, hcount, hsum, hlen⟩ :=
      ih { s with node_count := s.node_count + b.rows } hs
    refine ⟨s1, ItemResult.mk b.rows b.bytes t :: results, ?_, hstate, ?_, ?_, ?_⟩
    · simp [runNodeItems, hsub, hrun]
    · simp only at hcount
      simp [hcount]
      ring
    · simp [hsum]
    · simp [hlen]

/-- C5: when no node item fails, the sum of the rows fields over all
node-phase ItemResults equals the node_count returned by nodes_done on a
fresh session (round-trip accounting law). -/
theorem node_accounting_law (s : Session) (items : List (Batch × ℚ))
    (s1 s2 : Session) (results : List ItemResult) (cnt : Nat)
    (hs : s.state = .LOADING_NODES) (h0 : s.node_count = 0)
    (hrun : runNodeItems s items = .ok (s1, results))
    (hfin : s1.nodes_done = .ok (s2, cnt)) :
    (results.map ItemResult.rows).sum = cnt := by
  obtain ⟨s1', results', hrun', hstate, hcount, hsum, -⟩ :=
    runNodeItems_ok items s hs
  rw [hrun] at hrun'
  simp only [Except.ok.injEq, Prod.mk.injEq] at hrun'
  obtain ⟨h1, h2⟩ := hrun'
  subst h1; subst h2
  have hc : cnt = s1.node_count := by
    simp [Session.nodes_done, hstate] at hfin
    exact hfin.2.symm
  rw [hsum, hc, hcount, h0, Nat.zero_add]

theorem node_accounting_law_witness :
    (([ItemResult.mk 100 800 1, ItemResult.mk 50 400 1,
        ItemResult.mk 75 600 1].map ItemResult.rows).sum) = 225 :=
  node_accounting_law (Session.mk "gcdemo" 2 .LOADING_NODES 0 0)
    [(Batch.mk 100 800, 1), (Batch.mk 50 400, 1), (Batch.mk 75 600, 1)]
    (Session.mk "gcdemo" 2 .LOADING_NODES 225 0)
    (Session.mk "gcdemo" 2 .NODES_DONE 225 0)
    [ItemResult.mk 100 800 1, ItemResult.mk 50 400 1, ItemResult.mk 75 600 1]
    225 rfl rfl rfl rfl

theorem isSuccess_success (r : ItemResult) :
    (ItemOutcome.success r).isSuccess = true := rfl

theorem isSuccess_failure : ItemOutcome.failure.isSuccess = false := rfl

theorem countP_bool_split {α : Type} (p q : α → Bool) (l : List α)
    (hpq : ∀ a, q a = !p a) :
    l.countP p + l.countP q = l.length := by
  induction l with
  | nil => simp
  | cons a t ih =>
    simp only [List.countP_cons, hpq, List.length_cons]
    cases hpa : p a <;> simp [hpa] <;> omega

theorem runEdgeItemsCOE_ok (items : List (Batch × ℚ × Bool)) :
    ∀ s : Session, (s.state = .NODES_DONE ∨ s.state = .LOADING_EDGES) →
      ∃ (s1 : Session) (outs : List ItemOutcome),
        runEdgeItemsCOE s items = .ok (s1, outs) ∧
        outs.length = items.length ∧
        (outs.countP fun o => o.isSuccess) = (items.countP fun x => x.2.2) ∧
        s1.edge_count = s.edge_count + successRows items ∧
        (s1.state = .NODES_DONE ∨ s1.state = .LOADING_EDGES) ∧
        (((0 < items.countP fun x => x.2.2) ∨ s.state = .LOADING_EDGES) →
          s1.state = .LOADING_EDGES) := by
  induction items with
  | nil =>
    intro s hs
    refine ⟨s, [], rfl, rfl, by simp, by simp [successRows], hs, ?_⟩
    rintro (h | h)
    · simp at h
    · exact h
  | cons it rest ih =>
    intro s hs
    obtain ⟨b, t, good⟩ := it
    cases good with
    | false =>
      obtain ⟨s1, outs, hrun, hlen, hcnt, hec, hst, himp⟩ := ih s hs
      refine ⟨s1, .failure :: outs, ?_, ?_, ?_, ?_, hst, ?_⟩
      · simp [runEdgeItemsCOE, hrun]
      · simp [hlen]
      · simp [List.countP_cons, hcnt, isSuccess_failure]
      · simpa [successRows] using hec
      · rintro (h | h)
        · refine himp (Or.inl ?_)
          simpa [List.countP_cons] using h
        · exact himp (Or.inr h)
    | true =>
      have hsub : s.submit_edges b =
          .ok ({ s with state := .LOADING_EDGES,
                        edge_count := s.edge_count + b.rows }, b) := by
        rcases hs with hs | hs <;> simp [Session.submit_edges, hs]
      obtain ⟨s1, outs, hrun, hlen, hcnt, hec, hst, himp⟩ :=
        ih { s with state := .LOADING_EDGES,
                    edge_count := s.edge_count + b.rows } (Or.inr rfl)
      refine ⟨s1, .success (ItemResult.mk b.rows b.bytes t) :: outs,
        ?_, ?_, ?_, ?_, hst, ?_⟩
      · simp [runEdgeItemsCOE, hsub, hrun]
      · simp [hlen]
      · simp [List.countP_cons, hcnt, isSuccess_success]
      · simp only at hec
        simp [successRows] at hec ⊢
        omega
      · intro _
        exact himp (Or.inr rfl)

/-- C8: under the continue-on-error policy, when exactly one edge item
fails all its bounded retries and at least two items were given, the edge
phase still completes every item, reports one fewer successes than items
together with exactly one failure entry, and edges_done is still invoked
successfully, its server total reflecting only the successfully submitted
rows. -/
theorem continue_on_error_completes (s : Session)
    (items : List (Batch × ℚ × Bool))
    (hs : s.state = .NODES_DONE) (h0 : s.edge_count = 0)
    (hfail : (items.countP fun x => !x.2.2) = 1)
    (hlen : 2 ≤ items.length) :
    ∃ (s1 : Session) (outs : List ItemOutcome),
      runEdgeItemsCOE s items = .ok (s1, outs) ∧
      outs.length = items.length ∧
      (outs.countP fun o => o.isSuccess) = items.length - 1 ∧
      (outs.countP fun o => !o.isSuccess) = 1 ∧
      ∃ (s2 : Session) (cnt : Nat),
        s1.edges_done = .ok (s2, cnt) ∧ cnt = successRows items := by
  obtain ⟨s1, outs, hrun, hlen2, hcnt, hec, -, himp⟩ :=
    runEdgeItemsCOE_ok items s (Or.inl hs)
  have htot := countP_bool_split (fun x : Batch × ℚ × Bool => x.2.2)
    (fun x => !x.2.2) items (fun _ => rfl)
  have hgood : (items.countP fun x => x.2.2) = items.length - 1 := by omega
  have hpos : 0 < (items.countP fun x => x.2.2) := by omega
  have hstate1 : s1.state = .LOADING_EDGES := himp (Or.inl hpos)
  have houts := countP_bool_split (fun o : ItemOutcome => o.isSuccess)
    (fun o => !o.isSuccess) outs (fun _ => rfl)
  refine ⟨s1, outs, hrun, hlen2, by omega, by omega, ?_⟩
  refine ⟨{ s1 with state := .EDGES_DONE }, s1.edge_count, ?_, ?_⟩
  · simp [Session.edges_done, hstate1]
  · omega

theorem continue_on_error_completes_witness :
    ∃ (s1 : Session) (outs : List ItemOutcome),
      runEdgeItemsCOE (Session.mk "gcdemo" 224 .NODES_DONE 0 0) edgeItems10 =
        .ok (s1, outs) ∧
      outs.length = edgeItems10.length ∧
      (outs.countP fun o => o.isSuccess) = edgeItems10.length - 1 ∧
      (outs.countP fun o => !o.isSuccess) = 1 ∧
      ∃ (s2 : Session) (cnt : Nat),
        s1.edges_done = .ok (s2, cnt) ∧ cnt = successRows edgeItems10 :=
  continue_on_error_completes (Session.mk "gcdemo" 224 .NODES_DONE 0 0)
    edgeItems10 rfl rfl (by rfl) (by norm_num [edgeItems10])

/-- C1: in the trace of Session wire operations of a pipeline run, every
node batch submission and the NODES_DONE call precede every edge batch
submission, whatever the completion orders of the two phases. -/
theorem nodes_and_finalize_precede_edges (no eo : List Nat) (i j k m : Nat)
    (hi : (pipelineTrace no eo)[i]? = some (WireOp.PUT_EDGE_BATCH k))
    (hj : (pipelineTrace no eo)[j]? = some (WireOp.PUT_NODE_BATCH m) ∨
          (pipelineTrace no eo)[j]? = some WireOp.NODES_DONE) :
    j < i := by
  have htr : pipelineTrace no eo =
      (WireOp.CREATE_GRAPH ::
        (no.map WireOp.PUT_NODE_BATCH ++ [WireOp.NODES_DONE])) ++
        (eo.map WireOp.PUT_EDGE_BATCH ++ [WireOp.EDGES_DONE]) := by
    simp [pipelineTrace]
  set P := WireOp.CREATE_GRAPH ::
    (no.map WireOp.PUT_NODE_BATCH ++ [WireOp.NODES_DONE]) with hP
  set S := eo.map WireOp.PUT_EDGE_BATCH ++ [WireOp.EDGES_DONE] with hS
  have hPmem : ∀ x ∈ P, ∀ k0 : Nat, x ≠ WireOp.PUT_EDGE_BATCH k0 := by
    intro x hx k0
    rcases List.mem_cons.mp hx with h | h
    · subst h; simp
    · rcases List.mem_append.mp h with h | h
      · obtain ⟨n0, -, rfl⟩ := List.mem_map.mp h
        simp
      · simp only [List.mem_singleton] at h
        subst h; simp
  have hSmem : ∀ x ∈ S,
      (∀ m0 : Nat, x ≠ WireOp.PUT_NODE_BATCH m0) ∧ x ≠ WireOp.NODES_DONE := by
    intro x hx
    rcases List.mem_append.mp hx with h | h
    · obtain ⟨n0, -, rfl⟩ := List.mem_map.mp h
      exact ⟨fun m0 => by simp, by simp⟩
    · simp only [List.mem_singleton] at h
      subst h
      exact ⟨fun m0 => by simp, by simp⟩
  have hiP : P.length ≤ i := by
    by_contra hlt
    push_neg at hlt
    rw [htr, List.getElem?_append_left hlt] at hi
    exact hPmem _ (List.getElem?_mem hi) k rfl
  have hjP : j < P.length := by
    by_contra hge
    push_neg at hge
    rw [htr, List.getElem?_append_right hge] at hj
    rcases hj with hj | hj
    · exact (hSmem _ (List.getElem?_mem hj)).1 m rfl
    · exact (hSmem _ (List.getElem?_mem hj)).2 rfl
  omega

theorem nodes_and_finalize_precede_edges_witness : (1 : Nat) < 3 :=
  nodes_and_finalize_precede_edges [0] [1] 3 1 1 0 (by rfl) (Or.inl (by rfl))
